import Mathlib

/-!
Verification of the set data type of `db/set.go`: a Redis-like set stored in a
transactional ordered key-value store.  Byte strings are modelled as `List Nat`,
the transactional store as an association list together with a list of keys
whose access fails with a genuine (non-NotFound) store error, and each Go
function of `set.go` as a Lean function threading the store state explicitly.
Go runtime panics (out-of-range slicing) are modelled by a dedicated `Res.panic`
outcome, and fallible calls return `Res`.
-/

namespace titan

/-- Byte strings (Go `[]byte`); entries are byte values. -/
abbrev Bytes := List Nat

/-- Errors of the layer: the store's NotFound, a genuine (unspecified) store
error, and the three errors of the set layer (`ErrTypeMismatch`,
`ErrInvalidLength`, `ErrSetNilValue`, the latter being the corrupt-sentinel
error). -/
inductive Err where
  | notFound
  | genuine
  | typeMismatch
  | invalidLength
  | setNilValue
deriving DecidableEq, Repr

/-- Outcome of a Go call: a value, a returned error, or a runtime panic. -/
inductive Res (α : Type) where
  | ok (a : α)
  | err (e : Err)
  | panic
deriving DecidableEq, Repr

/-- `IsErrNotFound` of the store layer. -/
def IsErrNotFound (e : Err) : Bool :=
  e = Err.notFound

/-- Lexicographic (bytewise) comparison of byte strings, the order in which the
underlying store iterates keys. -/
def lexLe : Bytes → Bytes → Bool
  | [], _ => true
  | _ :: _, [] => false
  | a :: as, b :: bs => if a < b then true else if b < a then false else lexLe as bs

/-- `lexLe` as a relation, for use with `List.insertionSort`. -/
def lexLeP (a b : Bytes) : Prop := lexLe a b = true

instance : DecidableRel lexLeP := fun a b => by
  unfold lexLeP; infer_instance

/-- Bytewise prefix test (Go `bytes.HasPrefix` / `kv.Key.HasPrefix`). -/
def isPfx : Bytes → Bytes → Bool
  | [], _ => true
  | _ :: _, [] => false
  | a :: as, b :: bs => if a = b then isPfx as bs else false

/-- Association-list lookup (first binding wins). -/
def assocLookup : List (Bytes × Bytes) → Bytes → Option Bytes
  | [], _ => none
  | (k', v') :: rest, k => if k = k' then some v' else assocLookup rest k

/-- Association-list insert: replaces the binding in place, or appends. -/
def assocInsert : List (Bytes × Bytes) → Bytes → Bytes → List (Bytes × Bytes)
  | [], k, v => [(k, v)]
  | (k', v') :: rest, k, v =>
    if k = k' then (k, v) :: rest else (k', v') :: assocInsert rest k v

/-- Association-list erase: removes the first binding of the key. -/
def assocErase : List (Bytes × Bytes) → Bytes → List (Bytes × Bytes)
  | [], _ => []
  | (k', v') :: rest, k => if k = k' then rest else (k', v') :: assocErase rest k

/-- The transactional store visible to one transaction: current key-value
bindings, plus the set of keys whose point access fails with a genuine store
error (modelling an injected store fault). -/
structure Store where
  kv : List (Bytes × Bytes)
  failKeys : List Bytes
deriving DecidableEq, Repr

/-- `txn.t.Get`: NotFound when the key is absent, a genuine error on a failing
key. -/
def Store.get (st : Store) (k : Bytes) : Res Bytes :=
  if k ∈ st.failKeys then .err .genuine
  else
    match assocLookup st.kv k with
    | some v => .ok v
    | none => .err .notFound

/-- `txn.t.Set`. -/
def Store.put (st : Store) (k v : Bytes) : Res Store :=
  if k ∈ st.failKeys then .err .genuine
  else .ok { st with kv := assocInsert st.kv k v }

/-- `txn.t.Delete`. -/
def Store.del (st : Store) (k : Bytes) : Res Store :=
  if k ∈ st.failKeys then .err .genuine
  else .ok { st with kv := assocErase st.kv k }

/-- The object header shared by all collection types (external to `set.go`).
Identifier, creation time, last-update time, expiration time (0 = none), type
tag, encoding tag.  Times and the identifier are machine integers, modelled as
`Nat`. -/
structure Object where
  ID : Nat
  CreatedAt : Nat
  UpdatedAt : Nat
  ExpireAt : Nat
  Type' : Nat
  Encoding : Nat
deriving DecidableEq, Repr

/-- Type tag of sets. -/
def ObjectSet : Nat := 1

/-- Encoding tag used by `newSet`. -/
def ObjectEncodingHT : Nat := 2

/-- 2^64 as a numeral (Go `uint64` modulus). -/
def two64 : Nat := 18446744073709551616

/-- 2^63 as a numeral (Go `int64` sign boundary). -/
def two63 : Nat := 9223372036854775808

/-- Go `uint64(i)` of an `int64` value: the bit pattern, i.e. `i mod 2^64`. -/
def toUint64 (i : Int) : Nat := (i % (two64 : Int)).toNat

/-- Go `int64(u)` of a `uint64` value: the bit pattern read back as signed. -/
def toInt64 (u : Nat) : Int :=
  if u % two64 < two63 then ((u % two64 : Nat) : Int)
  else ((u % two64 : Nat) : Int) - (two64 : Int)

/-- `binary.BigEndian.PutUint64`: the 8 big-endian bytes of `n mod 2^64`. -/
def natToBE8 (n : Nat) : Bytes :=
  [n / 72057594037927936 % 256, n / 281474976710656 % 256,
   n / 1099511627776 % 256, n / 4294967296 % 256,
   n / 16777216 % 256, n / 65536 % 256, n / 256 % 256, n % 256]

/-- `binary.BigEndian.Uint64` on an 8-byte buffer. -/
def be8ToNat : Bytes → Nat
  | [b0, b1, b2, b3, b4, b5, b6, b7] =>
    ((((((b0 * 256 + b1) * 256 + b2) * 256 + b3) * 256 + b4) * 256 + b5) * 256
        + b6) * 256 + b7
  | _ => 0

/-- Modelled from the spec: fixed header length constant of the external
object codec (`ObjectEncodingLength`), whose source is not part of this core.
Four 8-byte fields plus the two tag bytes. -/
def ObjectEncodingLength : Nat := 34

/-- Modelled from the spec: `encodeHeader(obj) → bytes` of the external object
codec — an opaque header of exactly `ObjectEncodingLength` bytes capturing
identity, timestamps, type tag and encoding tag. -/
def EncodeObject (o : Object) : Bytes :=
  natToBE8 o.ID ++ (natToBE8 o.CreatedAt ++ (natToBE8 o.UpdatedAt ++
    (natToBE8 o.ExpireAt ++ [o.Type' % 256, o.Encoding % 256])))

/-- Modelled from the spec: `decodeHeader(bytes) → obj | error` of the external
object codec; fails on inputs shorter than the fixed header length (with the
invalid-length error, as the codec's callers expect). -/
def DecodeObject (b : Bytes) : Res Object :=
  if b.length < ObjectEncodingLength then .err .invalidLength
  else
    .ok { ID := be8ToNat (b.take 8)
          CreatedAt := be8ToNat ((b.drop 8).take 8)
          UpdatedAt := be8ToNat ((b.drop 16).take 8)
          ExpireAt := be8ToNat ((b.drop 24).take 8)
          Type' := (b.drop 32).headD 0
          Encoding := (b.drop 33).headD 0 }

/-- Modelled from the spec: the external expiration-time comparison — expired
iff the expiration time is set (non-zero) and not in the future. -/
def IsExpired (o : Object) (now : Nat) : Bool :=
  if o.ExpireAt = 0 then false else decide (o.ExpireAt ≤ now)

/-- `SetMeta`: the object header plus the 64-bit cardinality `Len`
(Go `int64`). -/
structure SetMeta where
  obj : Object
  Len : Int
deriving DecidableEq, Repr

/-- Go slice expression `b[k:]` under `cap(b) = len(b)`: panics when the index
exceeds the length. -/
def goSliceFrom (b : Bytes) (k : Nat) : Res Bytes :=
  if k ≤ b.length then .ok (b.drop k) else .panic

/-- Go slice expression `b[:k]` under `cap(b) = len(b)`: panics when the index
exceeds the length. -/
def goSliceTo (b : Bytes) (k : Nat) : Res Bytes :=
  if k ≤ b.length then .ok (b.take k) else .panic

/-- `DecodeSetMeta` of `set.go`: length guard (skipped for a nil input), then
the external header decode, then the trailing 8 bytes as cardinality.  The
input is `none` for Go's nil slice, `some bs` for a non-nil slice. -/
def DecodeSetMeta (b : Option Bytes) : Res SetMeta :=
  let lenCheck : Res Unit :=
    match b with
    | none => .ok ()
    | some bb =>
      match goSliceFrom bb ObjectEncodingLength with
      | .panic => .panic
      | .err e => .err e
      | .ok tail => if tail.length ≠ 8 then .err .invalidLength else .ok ()
  match lenCheck with
  | .panic => .panic
  | .err e => .err e
  | .ok _ =>
    let bs := b.getD []
    match DecodeObject bs with
    | .err e => .err e
    | .panic => .panic
    | .ok obj =>
      match goSliceFrom bs ObjectEncodingLength with
      | .panic => .panic
      | .err e => .err e
      | .ok m =>
        match goSliceTo m 8 with
        | .panic => .panic
        | .err e => .err e
        | .ok m8 => .ok { obj := obj, Len := toInt64 (be8ToNat m8) }

/-- `encodeSetMeta` of `set.go`: header bytes followed by the 8-byte
big-endian cardinality. -/
def encodeSetMeta (meta : SetMeta) : Bytes :=
  EncodeObject meta.obj ++ natToBE8 (toUint64 meta.Len)

/-- `SetNilValue`: the fixed one-byte sentinel stored under every member key. -/
def SetNilValue : Bytes := [0]

/-- Modelled from the spec: `metadataKey(db, logicalKey)` of the external key
namespace — a fully qualified store key, disjoint from all data keys (distinct
leading tag byte) and injective in the database id and the logical key. -/
def MetaKey (dbid : Nat) (key : Bytes) : Bytes :=
  77 :: dbid :: 58 :: key

/-- Modelled from the spec: `dataPrefix(db, objectId)` of the external key
namespace — the key-space region of one object's member keys, injective in the
database id and the object identifier. -/
def DataKey (dbid : Nat) (id : Nat) : Bytes :=
  [68, dbid, 58, id]

/-- `setItemKey` of `set.go`: data key, the byte `':'` (58), then the raw
member bytes. -/
def setItemKey (key : Bytes) (member : Bytes) : Bytes :=
  key ++ 58 :: member

/-- The `Set` handle of `set.go`: metadata, logical key, existence flag.  The
transaction is threaded separately as the database id plus the `Store`. -/
structure Set where
  meta : SetMeta
  key : Bytes
  exists' : Bool
deriving DecidableEq, Repr

/-- `newSet` of `set.go`: a fresh handle with a newly generated identity
(`newId` models the `UUID()` call, `now` the `Now()` call). -/
def newSet (now newId : Nat) (key : Bytes) : Set :=
  { meta := { obj := { ID := newId, CreatedAt := now, UpdatedAt := now,
                       ExpireAt := 0, Type' := ObjectSet,
                       Encoding := ObjectEncodingHT },
              Len := 0 },
    key := key,
    exists' := false }

/-- `GetSet` of `set.go`: load-or-create.  Note the source checks
`IsExpired(&set.meta.Object, Now())` on the fresh handle `set`, not on the
decoded metadata `smeta`; this is translated verbatim. -/
def GetSet (dbid now newId : Nat) (key : Bytes) (st : Store) : Res Set :=
  let set := newSet now newId key
  match st.get (MetaKey dbid key) with
  | .panic => .panic
  | .err e => if IsErrNotFound e then .ok set else .err e
  | .ok meta =>
    match DecodeSetMeta (some meta) with
    | .panic => .panic
    | .err e => .err e
    | .ok smeta =>
      if smeta.obj.Type' ≠ ObjectSet then .err .typeMismatch
      else if IsExpired set.meta.obj now then .ok set
      else .ok { set with meta := smeta, exists' := true }

/-- `updateMeta` of `set.go`: encode the handle's metadata, persist it, and
only afterwards bump the in-memory `UpdatedAt` and the existence flag (the
source assigns `set.meta.UpdatedAt = Now()` after the store write). -/
def updateMeta (dbid now : Nat) (set : Set) (st : Store) : Res (Set × Store) :=
  let meta := encodeSetMeta set.meta
  match st.put (MetaKey dbid set.key) meta with
  | .panic => .panic
  | .err e => .err e
  | .ok st' =>
    let set' := { set with
      meta := { set.meta with obj := { set.meta.obj with UpdatedAt := now } },
      exists' := true }
    .ok (set', st')

/-- `RemoveRepByMap` of `set.go`, with the map of seen members carried as a
list: keeps the first occurrence of each member, in order. -/
def removeRepAux : List Bytes → List Bytes → List Bytes
  | [], _ => []
  | m :: rest, seen =>
    if m ∈ seen then removeRepAux rest seen
    else m :: removeRepAux rest (m :: seen)

/-- `RemoveRepByMap` of `set.go`: first-occurrence deduplication. -/
def RemoveRepByMap (members : List Bytes) : List Bytes :=
  removeRepAux members []

/-- Modelled from the spec: `BatchGetValues` — fetches the current values of
the given keys in one round trip, absent keys yielding nil (`none`); a genuine
store fault on any of the keys fails the whole batch. -/
def BatchGetValues (st : Store) (keys : List Bytes) : Res (List (Option Bytes)) :=
  if keys.any (fun k => k ∈ st.failKeys) then .err .genuine
  else .ok (keys.map (assocLookup st.kv))

/-- The write loop of `SAdd` over the deduplicated member keys paired with
their batch-fetched prior values: count a key as added when its prior value
was absent, and write the sentinel unconditionally. -/
def saddLoop : List (Bytes × Option Bytes) → Store → Res (Int × Store)
  | [], st => .ok (0, st)
  | (k, v) :: rest, st =>
    let inc : Int := if v = none then 1 else 0
    match st.put k SetNilValue with
    | .panic => .panic
    | .err e => .err e
    | .ok st' =>
      match saddLoop rest st' with
      | .panic => .panic
      | .err e => .err e
      | .ok (a, st'') => .ok (inc + a, st'')

/-- `SAdd` of `set.go`.  Note the source returns `0, nil` when the batch fetch
fails (`if err != nil { return 0, nil }`); this is translated verbatim. -/
def SAdd (dbid now : Nat) (set : Set) (members : List Bytes) (st : Store) :
    Res (Int × Set × Store) :=
  let dkey := DataKey dbid set.meta.obj.ID
  let ms := RemoveRepByMap members
  let ikeys := ms.map (setItemKey dkey)
  match BatchGetValues st ikeys with
  | .panic => .panic
  | .err _ => .ok (0, set, st)
  | .ok values =>
    match saddLoop (ikeys.zip values) st with
    | .panic => .panic
    | .err e => .err e
    | .ok (added, st') =>
      let set' := { set with meta := { set.meta with Len := set.meta.Len + added } }
      match updateMeta dbid now set' st' with
      | .panic => .panic
      | .err e => .err e
      | .ok (set'', st'') => .ok (added, set'', st'')

/-- `SCard` of `set.go`: the stored cardinality, no scan. -/
def SCard (set : Set) : Res Int :=
  if !set.exists' then .ok 0 else .ok set.meta.Len

/-- `SIsmember` of `set.go`. -/
def SIsmember (dbid : Nat) (set : Set) (member : Bytes) (st : Store) : Res Int :=
  if !set.exists' then .ok 0
  else
    let dkey := DataKey dbid set.meta.obj.ID
    let ikey := setItemKey dkey member
    match st.get ikey with
    | .panic => .panic
    | .err e => if IsErrNotFound e then .ok 0 else .err e
    | .ok value => if value = SetNilValue then .ok 1 else .err .setNilValue

/-- The member iterator of `set.go` (`txn.t.Iter(prefix, prefix.PrefixNext())`):
the keys of the store carrying the prefix, in the store's lexicographic
iteration order. -/
def iterKeys (st : Store) (pfx : Bytes) : List Bytes :=
  List.insertionSort lexLeP ((st.kv.map Prod.fst).filter (fun k => isPfx pfx k))

/-- The loop of `SPop` over the iterator's keys: record the (prefix-stripped)
member, delete its key, decrement the budget, until the iterator is exhausted
or the budget reaches zero. -/
def spopLoop (pfxLen : Nat) : List Bytes → Int → Store →
    Res (List Bytes × Int × Store)
  | [], _, st => .ok ([], 0, st)
  | k :: ks, count, st =>
    if count = 0 then .ok ([], 0, st)
    else
      match st.del k with
      | .panic => .panic
      | .err e => .err e
      | .ok st' =>
        match spopLoop pfxLen ks (count - 1) st' with
        | .panic => .panic
        | .err e => .err e
        | .ok (ms, d, st'') => .ok (k.drop pfxLen :: ms, d + 1, st'')

/-- `SPop` of `set.go`. -/
def SPop (dbid now : Nat) (set : Set) (count : Int) (st : Store) :
    Res (List Bytes × Set × Store) :=
  if !set.exists' || set.meta.Len = 0 then .ok ([], set, st)
  else
    let dkey := DataKey dbid set.meta.obj.ID
    let pfx := dkey ++ [58]
    match spopLoop pfx.length (iterKeys st pfx) count st with
    | .panic => .panic
    | .err e => .err e
    | .ok (members, deleted, st') =>
      let set' := { set with meta := { set.meta with Len := set.meta.Len - deleted } }
      match updateMeta dbid now set' st' with
      | .panic => .panic
      | .err e => .err e
      | .ok (set'', st'') => .ok (members, set'', st'')

/-- The loop of `SRem` over the deduplicated member keys: absent keys are
skipped, keys holding the sentinel are deleted and counted, keys holding any
other value are skipped silently (the source has no else branch). -/
def sremLoop : List Bytes → Store → Res (Int × Store)
  | [], st => .ok (0, st)
  | k :: rest, st =>
    match st.get k with
    | .panic => .panic
    | .err e =>
      if IsErrNotFound e then sremLoop rest st else .err e
    | .ok value =>
      if value = SetNilValue then
        match st.del k with
        | .panic => .panic
        | .err e => .err e
        | .ok st' =>
          match sremLoop rest st' with
          | .panic => .panic
          | .err e => .err e
          | .ok (n, st'') => .ok (n + 1, st'')
      else sremLoop rest st

/-- `SRem` of `set.go`. -/
def SRem (dbid now : Nat) (set : Set) (members : List Bytes) (st : Store) :
    Res (Int × Set × Store) :=
  if !set.exists' then .ok (0, set, st)
  else
    let dkey := DataKey dbid set.meta.obj.ID
    let ms := RemoveRepByMap members
    let ikeys := ms.map (setItemKey dkey)
    match sremLoop ikeys st with
    | .panic => .panic
    | .err e => .err e
    | .ok (num, st') =>
      let set' := { set with meta := { set.meta with Len := set.meta.Len - num } }
      match updateMeta dbid now set' st' with
      | .panic => .panic
      | .err e => .err e
      | .ok (set'', st'') => .ok (num, set'', st'')

/-- `SMove` of `set.go`.  Note the source returns `0, nil` when loading the
destination handle fails (`if err != nil { return 0, nil }`), and increments
the discarded destination handle's in-memory `Len` after its own `SAdd`; both
are translated verbatim. -/
def SMove (dbid now newId : Nat) (set : Set) (destination member : Bytes)
    (st : Store) : Res (Int × Set × Store) :=
  if !set.exists' then .ok (0, set, st)
  else
    match SIsmember dbid set member st with
    | .panic => .panic
    | .err e => .err e
    | .ok res =>
      if res = 0 then .ok (0, set, st)
      else
        match GetSet dbid now newId destination st with
        | .panic => .panic
        | .err _ => .ok (0, set, st)
        | .ok destset =>
          match SIsmember dbid destset member st with
          | .panic => .panic
          | .err e => .err e
          | .ok res2 =>
            let afterAdd : Res Store :=
              if res2 = 0 then
                match SAdd dbid now destset [member] st with
                | .panic => .panic
                | .err e => .err e
                | .ok (_, destset2, st1) =>
                  let _destset3 := { destset2 with
                    meta := { destset2.meta with Len := destset2.meta.Len + 1 } }
                  .ok st1
              else .ok st
            match afterAdd with
            | .panic => .panic
            | .err e => .err e
            | .ok st1 =>
              let dkey := DataKey dbid set.meta.obj.ID
              let ikey := setItemKey dkey member
              match st1.del ikey with
              | .panic => .panic
              | .err e => .err e
              | .ok st2 =>
                let set' := { set with
                  meta := { set.meta with Len := set.meta.Len - 1 } }
                match updateMeta dbid now set' st2 with
                | .panic => .panic
                | .err e => .err e
                | .ok (set'', st3) => .ok (1, set'', st3)

/-- The member keys of the object `id` currently present in the store (the
key-space region scanned by the iterator), in store order of `st.kv`. -/
def memberKeys (st : Store) (dbid id : Nat) : List Bytes :=
  (st.kv.map Prod.fst).filter (fun k => isPfx (DataKey dbid id ++ [58]) k)

/-- The member byte-strings of the object `id` currently present in the store:
the member keys with the data prefix stripped. -/
def memberSuffixes (st : Store) (dbid id : Nat) : List Bytes :=
  (memberKeys st dbid id).map (fun k => k.drop (DataKey dbid id ++ [58]).length)

/-- Delete a list of keys from the store, in order. -/
def delAll (st : Store) (ks : List Bytes) : Store :=
  ks.foldl (fun s k => { s with kv := assocErase s.kv k }) st

/-- Write the sentinel under a list of keys, in order. -/
def addAll (st : Store) (ks : List Bytes) : Store :=
  ks.foldl (fun s k => { s with kv := assocInsert s.kv k SetNilValue }) st

/-- Well-formedness of an object header as produced by the Go program: all
fields fit their machine integer types (`uint64` fields, byte tags). -/
def Object.wf (o : Object) : Prop :=
  o.ID < two64 ∧ o.CreatedAt < two64 ∧ o.UpdatedAt < two64 ∧
  o.ExpireAt < two64 ∧ o.Type' < 256 ∧ o.Encoding < 256

instance (o : Object) : Decidable o.wf := by
  unfold Object.wf; infer_instance

/-- Sample live object header: identity 7, created at 1, last updated at 2,
no expiration, set type. -/
def objA : Object :=
  { ID := 7, CreatedAt := 1, UpdatedAt := 2, ExpireAt := 0,
    Type' := ObjectSet, Encoding := ObjectEncodingHT }

/-- Sample loaded handle for logical key `[1]` with cardinality 2. -/
def setA : Set := { meta := { obj := objA, Len := 2 }, key := [1], exists' := true }

/-- Sample loaded handle for logical key `[1]` with cardinality 3. -/
def setA3 : Set := { meta := { obj := objA, Len := 3 }, key := [1], exists' := true }

/-- The metadata key of logical key `[1]` in database 0. -/
def mkey1 : Bytes := MetaKey 0 [1]

/-- The member key of a member of object 7 in database 0. -/
def ikey7 (m : Bytes) : Bytes := setItemKey (DataKey 0 7) m

/-- Store in which the member key `[5]` of object 7 fails with a genuine store
error. -/
def stBatchFail : Store := { kv := [], failKeys := [ikey7 [5]] }

/-- Store holding member `[9]` of object 7, in which the metadata key of
logical key `[2]` fails with a genuine store error. -/
def stMoveFail : Store :=
  { kv := [(ikey7 [9], SetNilValue)], failKeys := [MetaKey 0 [2]] }

/-- Sample object header whose expiration time 5 is set and in the past at
time 10. -/
def objExp : Object := { objA with ExpireAt := 5 }

/-- Expired sample metadata. -/
def metaExp : SetMeta := { obj := objExp, Len := 3 }

/-- Store holding the expired metadata record under logical key `[1]`. -/
def stExp : Store := { kv := [(mkey1, encodeSetMeta metaExp)], failKeys := [] }

/-- Store in which member key `[9]` of object 7 holds the non-sentinel value
`[7]` (corrupt), next to the metadata record of `setA`. -/
def stCorrupt : Store :=
  { kv := [(mkey1, encodeSetMeta setA.meta), (ikey7 [9], [7])], failKeys := [] }

/-- Store holding only the metadata record of `setA3`. -/
def stMetaOnly : Store := { kv := [(mkey1, encodeSetMeta setA3.meta)], failKeys := [] }

/-- Store holding the metadata record of `setA` and its member `[9]`. -/
def stMoveSelf : Store :=
  { kv := [(mkey1, encodeSetMeta setA.meta), (ikey7 [9], SetNilValue)],
    failKeys := [] }

/-- Sample loaded handle for logical key `[1]` with cardinality 1. -/
def setA1 : Set := { meta := { obj := objA, Len := 1 }, key := [1], exists' := true }

/-- Store holding the metadata record of `setA` and its members `[9]` and
`[4]`. -/
def stPop : Store :=
  { kv := [(mkey1, encodeSetMeta setA.meta), (ikey7 [9], SetNilValue),
           (ikey7 [4], SetNilValue)],
    failKeys := [] }

/-- Store holding exactly the member `[5]` of object 7. -/
def stC5 : Store := { kv := [(ikey7 [5], SetNilValue)], failKeys := [] }

end titan

namespace titan

theorem be8_natToBE8 (n : Nat) : be8ToNat (natToBE8 n) = n % two64 := by
  simp only [natToBE8, be8ToNat, two64]
  omega

theorem toInt64_be8_toUint64 (i : Int)
    (hlo : -((two63 : Nat) : Int) ≤ i) (hhi : i < ((two63 : Nat) : Int)) :
    toInt64 (be8ToNat (natToBE8 (toUint64 i))) = i := by
  rw [be8_natToBE8]
  simp only [toInt64, toUint64, two64, two63] at *
  split <;> omega

theorem DecodeObject_EncodeObject (o : Object) (h : o.wf) :
    DecodeObject (EncodeObject o) = .ok o := by
  obtain ⟨h1, h2, h3, h4, h5, h6⟩ := h
  have hred : DecodeObject (EncodeObject o) = .ok
      { ID := be8ToNat (natToBE8 o.ID), CreatedAt := be8ToNat (natToBE8 o.CreatedAt),
        UpdatedAt := be8ToNat (natToBE8 o.UpdatedAt),
        ExpireAt := be8ToNat (natToBE8 o.ExpireAt),
        Type' := o.Type' % 256, Encoding := o.Encoding % 256 } := rfl
  rw [hred, be8_natToBE8, be8_natToBE8, be8_natToBE8, be8_natToBE8,
    Nat.mod_eq_of_lt h1, Nat.mod_eq_of_lt h2, Nat.mod_eq_of_lt h3,
    Nat.mod_eq_of_lt h4, Nat.mod_eq_of_lt h5, Nat.mod_eq_of_lt h6]

/-- Round trip of the metadata codec, for well-formed headers and an `int64`
cardinality. -/
theorem DecodeSetMeta_encodeSetMeta (m : SetMeta) (hwf : m.obj.wf)
    (hlo : -((two63 : Nat) : Int) ≤ m.Len) (hhi : m.Len < ((two63 : Nat) : Int)) :
    DecodeSetMeta (some (encodeSetMeta m)) = .ok m := by
  obtain ⟨h1, h2, h3, h4, h5, h6⟩ := hwf
  have hred : DecodeSetMeta (some (encodeSetMeta m)) = .ok
      { obj := { ID := be8ToNat (natToBE8 m.obj.ID),
                 CreatedAt := be8ToNat (natToBE8 m.obj.CreatedAt),
                 UpdatedAt := be8ToNat (natToBE8 m.obj.UpdatedAt),
                 ExpireAt := be8ToNat (natToBE8 m.obj.ExpireAt),
                 Type' := m.obj.Type' % 256, Encoding := m.obj.Encoding % 256 },
        Len := toInt64 (be8ToNat (natToBE8 (toUint64 m.Len))) } := rfl
  rw [hred, toInt64_be8_toUint64 m.Len hlo hhi, be8_natToBE8, be8_natToBE8,
    be8_natToBE8, be8_natToBE8,
    Nat.mod_eq_of_lt h1, Nat.mod_eq_of_lt h2, Nat.mod_eq_of_lt h3,
    Nat.mod_eq_of_lt h4, Nat.mod_eq_of_lt h5, Nat.mod_eq_of_lt h6]

/-- Claim C6: decoding the result of encoding a `SetMeta` record
(`encodeSetMeta` then `DecodeSetMeta`) succeeds and yields the original header
fields and the original `Len` value, for every record the Go program can hold
(header fields fitting their machine integer types, `Len` an `int64`). -/
theorem c6_meta_roundtrip (m : SetMeta) (hwf : m.obj.wf)
    (hlo : -((two63 : Nat) : Int) ≤ m.Len) (hhi : m.Len < ((two63 : Nat) : Int)) :
    DecodeSetMeta (some (encodeSetMeta m)) = .ok m :=
  DecodeSetMeta_encodeSetMeta m hwf hlo hhi

theorem c6_meta_roundtrip_witness :
    (setA.meta.obj.wf ∧ -((two63 : Nat) : Int) ≤ setA.meta.Len ∧
      setA.meta.Len < ((two63 : Nat) : Int)) ∧
    DecodeSetMeta (some (encodeSetMeta setA.meta)) = .ok setA.meta :=
  ⟨⟨by decide, by decide, by decide⟩,
    c6_meta_roundtrip setA.meta (by decide) (by decide) (by decide)⟩

/-- Claim C7 (amended): `DecodeSetMeta` stays in bounds on the nil input and on
non-nil inputs at least as long as the fixed header; on those it fails with the
invalid-length error exactly when the input is not exactly header length + 8
bytes (the nil input, bypassing the explicit guard, fails through the header
decoder).  Non-nil inputs shorter than the header are excluded: there the
source's slice expression is out of bounds (see the counterexample). -/
theorem c7_amended (b : Option Bytes)
    (h : ∀ bs, b = some bs → ObjectEncodingLength ≤ bs.length) :
    DecodeSetMeta b ≠ .panic ∧
    (DecodeSetMeta b = .err .invalidLength ↔
      ∀ bs, b = some bs → bs.length ≠ ObjectEncodingLength + 8) := by
  cases b with
  | none =>
    refine ⟨by decide, ?_⟩
    constructor
    · intro _ bs hbs
      exact absurd hbs (by simp)
    · intro _
      decide
  | some bs =>
    have hlen : ObjectEncodingLength ≤ bs.length := h bs rfl
    by_cases hb : bs.length = ObjectEncodingLength + 8
    · have hm : DecodeSetMeta (some bs) = .ok
          { obj := { ID := be8ToNat (bs.take 8),
                     CreatedAt := be8ToNat ((bs.drop 8).take 8),
                     UpdatedAt := be8ToNat ((bs.drop 16).take 8),
                     ExpireAt := be8ToNat ((bs.drop 24).take 8),
                     Type' := (bs.drop 32).headD 0,
                     Encoding := (bs.drop 33).headD 0 },
            Len := toInt64 (be8ToNat ((bs.drop ObjectEncodingLength).take 8)) } := by
        have h8 : bs.length - 34 = 8 := by
          simp only [ObjectEncodingLength] at hb
          omega
        simp only [DecodeSetMeta, goSliceFrom, goSliceTo, DecodeObject,
          Option.getD, List.length_drop, hb]
        norm_num [ObjectEncodingLength, h8]
      refine ⟨by simp [hm], ?_⟩
      constructor
      · intro hcontra
        rw [hm] at hcontra
        exact absurd hcontra (by simp)
      · intro hall
        exact absurd hb (hall bs rfl)
    · have herr : DecodeSetMeta (some bs) = .err .invalidLength := by
        simp only [DecodeSetMeta, goSliceFrom, if_pos hlen, List.length_drop]
        have hne : ¬ (bs.length - ObjectEncodingLength = 8) := by omega
        simp [hne]
      refine ⟨by simp [herr], ?_⟩
      constructor
      · intro _ bs' hbs'
        injection hbs' with h2
        rw [← h2]
        omega
      · intro _
        exact herr

theorem c7_amended_witness :
    DecodeSetMeta (some (List.replicate 43 0)) ≠ .panic ∧
    (DecodeSetMeta (some (List.replicate 43 0)) = .err .invalidLength ↔
      ∀ bs, some (List.replicate 43 0) = some bs →
        bs.length ≠ ObjectEncodingLength + 8) :=
  c7_amended (some (List.replicate 43 0))
    (by intro bs h2; injection h2 with h3; rw [← h3]; decide)

/-- Claim C1 (code bug in the source): a genuine store error during the batch
fetch of `SAdd` is swallowed — `SAdd` returns `(0, nil)` with the state
unchanged instead of the error (set.go:165) — and a genuine store error while
loading the destination handle of `SMove` is likewise swallowed — `SMove`
returns `(0, nil)` instead of the error (set.go:337). -/
theorem c1_error_swallowed :
    SAdd 0 11 setA [[5]] stBatchFail = .ok (0, setA, stBatchFail) ∧
    SMove 0 11 99 setA [2] [9] stMoveFail = .ok (0, setA, stMoveFail) := by
  decide

/-- Claim C2 (code bug in the source): for a stored set metadata record whose
expiration time 5 is set and in the past at load time 10, `GetSet` returns a
handle with `exists = true` carrying the expired decoded metadata — the source
tests `IsExpired` on the fresh handle's object (whose `ExpireAt` is 0) instead
of the decoded metadata, so the expired record is never discarded. -/
theorem c2_expired_meta_returned :
    IsExpired metaExp.obj 10 = true ∧
    GetSet 0 10 99 [1] stExp = .ok { meta := metaExp, key := [1], exists' := true } := by
  decide

/-- Claim C3 (counterexample): `SRem` on a member key holding the non-sentinel
value `[7]` does not fail with the corrupt-sentinel error; it silently skips
the member and returns a success count of 0, leaving the corrupt binding in
place. -/
theorem c3_counterexample :
    SRem 0 11 setA [[9]] stCorrupt ≠ .err .setNilValue ∧
    SRem 0 11 setA [[9]] stCorrupt =
      .ok (0,
        { setA with meta := { setA.meta with
            obj := { setA.meta.obj with UpdatedAt := 11 } } },
        stCorrupt) := by
  decide

/-- Claim C7 (counterexample): on the non-nil input `[0]`, shorter than the
fixed header length, `DecodeSetMeta`'s slice expression
`b[ObjectEncodingLength:]` is out of bounds (a Go runtime panic), so decoding
neither stays in bounds nor fails with the invalid-length error. -/
theorem c7_counterexample :
    DecodeSetMeta (some [0]) = .panic ∧
    DecodeSetMeta (some [0]) ≠ .err .invalidLength := by
  decide

/-- Claim C8 (code bug in the source): a successful `SAdd` at current time 9 on
a handle whose metadata was last updated at 2 persists a metadata record still
carrying `UpdatedAt = 2` — `updateMeta` encodes and writes the record before
assigning the new timestamp — while only the discarded in-memory handle gets
`UpdatedAt = 9`. -/
theorem c8_stale_persisted_timestamp :
    SAdd 0 9 setA3 [[5]] stMetaOnly =
      .ok (1,
        { meta := { obj := { objA with UpdatedAt := 9 }, Len := 4 },
          key := [1], exists' := true },
        { kv := [(mkey1, encodeSetMeta { obj := objA, Len := 4 }),
                 (ikey7 [5], SetNilValue)],
          failKeys := [] }) ∧
    objA.UpdatedAt = 2 := by
  decide

theorem assocLookup_insert_self (kv : List (Bytes × Bytes)) (k v : Bytes) :
    assocLookup (assocInsert kv k v) k = some v := by
  induction kv with
  | nil => simp [assocInsert, assocLookup]
  | cons p rest ih =>
    obtain ⟨k', v'⟩ := p
    by_cases h : k = k'
    · simp [assocInsert, assocLookup, h]
    · simp [assocInsert, assocLookup, h, ih]

theorem assocLookup_insert_ne (kv : List (Bytes × Bytes)) (k v k0 : Bytes)
    (h : k0 ≠ k) : assocLookup (assocInsert kv k v) k0 = assocLookup kv k0 := by
  induction kv with
  | nil => simp [assocInsert, assocLookup, h]
  | cons p rest ih =>
    obtain ⟨k', v'⟩ := p
    by_cases hk : k = k'
    · subst hk
      simp [assocInsert, assocLookup, h]
    · by_cases h0 : k0 = k'
      · simp [assocInsert, assocLookup, hk, h0]
      · simp [assocInsert, assocLookup, hk, h0, ih]

theorem assocLookup_erase_ne (kv : List (Bytes × Bytes)) (k k0 : Bytes)
    (h : k0 ≠ k) : assocLookup (assocErase kv k) k0 = assocLookup kv k0 := by
  induction kv with
  | nil => simp [assocErase]
  | cons p rest ih =>
    obtain ⟨k', v'⟩ := p
    by_cases hk : k = k'
    · subst hk
      simp [assocErase, assocLookup, h]
    · by_cases h0 : k0 = k'
      · simp [assocErase, assocLookup, hk, h0]
      · simp [assocErase, assocLookup, hk, h0, ih]

theorem assocLookup_some_mem (kv : List (Bytes × Bytes)) (k v : Bytes)
    (h : assocLookup kv k = some v) : k ∈ kv.map Prod.fst := by
  induction kv with
  | nil => simp [assocLookup] at h
  | cons p rest ih =>
    obtain ⟨k', v'⟩ := p
    by_cases hk : k = k'
    · simp [hk]
    · simp only [assocLookup, if_neg hk] at h
      simp [ih h]

theorem assocLookup_erase_self (kv : List (Bytes × Bytes)) (k : Bytes)
    (h : (kv.map Prod.fst).Nodup) : assocLookup (assocErase kv k) k = none := by
  induction kv with
  | nil => simp [assocErase, assocLookup]
  | cons p rest ih =>
    obtain ⟨k', v'⟩ := p
    simp only [List.map_cons, List.nodup_cons] at h
    by_cases hk : k = k'
    · subst hk
      simp only [assocErase, if_pos rfl]
      cases hr : assocLookup rest k with
      | none => exact hr
      | some v => exact absurd (assocLookup_some_mem rest k v hr) h.1
    · simp [assocErase, assocLookup, hk, ih h.2]

theorem Store.get_ok (st : Store) (k v : Bytes) (h : st.get k = .ok v) :
    k ∉ st.failKeys ∧ assocLookup st.kv k = some v := by
  unfold Store.get at h
  split at h
  · exact absurd h (by simp)
  · refine ⟨by assumption, ?_⟩
    split at h
    · rename_i v' hl
      injection h with h2
      rw [← h2]
      exact hl
    · exact absurd h (by simp)

theorem Store.put_ok (st : Store) (k v : Bytes) (st' : Store)
    (h : st.put k v = .ok st') :
    k ∉ st.failKeys ∧ st' = { st with kv := assocInsert st.kv k v } := by
  unfold Store.put at h
  split at h
  · exact absurd h (by simp)
  · refine ⟨by assumption, ?_⟩
    injection h with h2
    exact h2.symm

theorem Store.del_ok (st : Store) (k : Bytes) (st' : Store)
    (h : st.del k = .ok st') :
    k ∉ st.failKeys ∧ st' = { st with kv := assocErase st.kv k } := by
  unfold Store.del at h
  split at h
  · exact absurd h (by simp)
  · refine ⟨by assumption, ?_⟩
    injection h with h2
    exact h2.symm

theorem Store.get_err (st : Store) (k : Bytes) (e : Err) (h : st.get k = .err e) :
    e = .notFound ∨ e = .genuine := by
  unfold Store.get at h
  split at h
  · exact Or.inr (by injection h with h2; exact h2.symm)
  · split at h
    · exact absurd h (by simp)
    · exact Or.inl (by injection h with h2; exact h2.symm)

theorem Store.put_err (st : Store) (k v : Bytes) (e : Err)
    (h : st.put k v = .err e) : e = .genuine := by
  unfold Store.put at h
  split at h
  · injection h with h2
    exact h2.symm
  · exact absurd h (by simp)

theorem Store.del_err (st : Store) (k : Bytes) (e : Err)
    (h : st.del k = .err e) : e = .genuine := by
  unfold Store.del at h
  split at h
  · injection h with h2
    exact h2.symm
  · exact absurd h (by simp)

theorem updateMeta_eq (dbid now : Nat) (set : Set) (st : Store) :
    updateMeta dbid now set st =
      match st.put (MetaKey dbid set.key) (encodeSetMeta set.meta) with
      | .panic => .panic
      | .err e => .err e
      | .ok st' => .ok
          ({ set with
              meta := { set.meta with
                obj := { set.meta.obj with UpdatedAt := now } },
              exists' := true }, st') := rfl

theorem updateMeta_err (dbid now : Nat) (set : Set) (st : Store) (e : Err)
    (h : updateMeta dbid now set st = .err e) : e = .genuine := by
  rw [updateMeta_eq] at h
  cases hp : st.put (MetaKey dbid set.key) (encodeSetMeta set.meta) with
  | panic => rw [hp] at h; exact absurd h (by simp)
  | err e' =>
    rw [hp] at h
    injection h with h2
    rw [← h2]
    exact Store.put_err st _ _ e' hp
  | ok st' => rw [hp] at h; exact absurd h (by simp)

theorem updateMeta_ok (dbid now : Nat) (set : Set) (st : Store) (r : Set × Store)
    (h : updateMeta dbid now set st = .ok r) :
    MetaKey dbid set.key ∉ st.failKeys ∧
    r = ({ set with
            meta := { set.meta with
              obj := { set.meta.obj with UpdatedAt := now } },
            exists' := true },
         { st with kv := assocInsert st.kv (MetaKey dbid set.key)
                           (encodeSetMeta set.meta) }) := by
  rw [updateMeta_eq] at h
  cases hp : st.put (MetaKey dbid set.key) (encodeSetMeta set.meta) with
  | panic => rw [hp] at h; exact absurd h (by simp)
  | err e' => rw [hp] at h; exact absurd h (by simp)
  | ok st' =>
    rw [hp] at h
    injection h with h2
    unfold Store.put at hp
    split at hp
    · exact absurd hp (by simp)
    · injection hp with h3
      exact ⟨by assumption, by rw [← h2, ← h3]⟩

theorem sremLoop_ne_setNilValue (ks : List Bytes) (st : Store) :
    sremLoop ks st ≠ .err .setNilValue := by
  induction ks generalizing st with
  | nil => simp [sremLoop]
  | cons k rest ih =>
    simp only [sremLoop]
    split
    · simp
    · rename_i e heq
      rcases Store.get_err st k e heq with he | he <;> subst he
      · simp [IsErrNotFound, ih]
      · simp [IsErrNotFound]
    · rename_i value heq
      by_cases hv : value = SetNilValue
      · simp only [if_pos hv]
        split
        · simp
        · rename_i e' heq'
          have he' := Store.del_err st k e' heq'
          simp [he']
        · rename_i st' heq'
          split
          · simp
          · rename_i e' heq2
            have hne := ih st'
            rw [heq2] at hne
            exact hne
          · simp
      · simp [if_neg hv, ih]

theorem sremLoop_preserves (ks : List Bytes) (st : Store) (k0 v : Bytes)
    (hv : assocLookup st.kv k0 = some v) (hvne : v ≠ SetNilValue) :
    ∀ n st', sremLoop ks st = .ok (n, st') → assocLookup st'.kv k0 = some v := by
  induction ks generalizing st with
  | nil =>
    intro n st' h
    simp only [sremLoop, Res.ok.injEq, Prod.mk.injEq] at h
    rw [← h.2]
    exact hv
  | cons k rest ih =>
    intro n st' h
    simp only [sremLoop] at h
    split at h
    · exact absurd h (by simp)
    · rename_i e heq
      split at h
      · exact ih st hv n st' h
      · exact absurd h (by simp)
    · rename_i value heq
      split at h
      · rename_i hval
        have hgk := (Store.get_ok st k value heq).2
        have hk0 : k0 ≠ k := by
          intro hcontra
          subst hcontra
          rw [hv] at hgk
          injection hgk with h2
          exact hvne (h2.trans hval)
        split at h
        · exact absurd h (by simp)
        · exact absurd h (by simp)
        · rename_i st1 heq'
          have hd := (Store.del_ok st k st1 heq').2
          have hst1 : assocLookup st1.kv k0 = some v := by
            rw [hd]
            simpa [assocLookup_erase_ne st.kv k k0 hk0] using hv
          split at h
          · exact absurd h (by simp)
          · exact absurd h (by simp)
          · rename_i n2 st2 heq2
            injection h with h2
            injection h2 with h3 h4
            rw [← h4]
            exact ih st1 hst1 n2 st2 heq2
      · exact ih st hv n st' h

/-- Claim C3 (amended): `SRem` never fails with the corrupt-sentinel error; a
member key whose stored value is present but differs from the sentinel byte is
silently skipped — any successful return leaves that key bound to the same
corrupt value (it is neither deleted nor counted) — and processing
continues. -/
theorem SRem_eq (dbid now : Nat) (set : Set) (members : List Bytes) (st : Store) :
    SRem dbid now set members st =
      if !set.exists' then .ok (0, set, st)
      else
        match sremLoop ((RemoveRepByMap members).map
            (setItemKey (DataKey dbid set.meta.obj.ID))) st with
        | .panic => .panic
        | .err e => .err e
        | .ok (num, st') =>
          match updateMeta dbid now
              { set with meta := { set.meta with Len := set.meta.Len - num } } st' with
          | .panic => .panic
          | .err e => .err e
          | .ok (set'', st'') => .ok (num, set'', st'') := rfl

theorem setItemKey_ne_MetaKey (dbid dbid' id : Nat) (m k : Bytes) :
    setItemKey (DataKey dbid id) m ≠ MetaKey dbid' k := by
  simp [setItemKey, DataKey, MetaKey]

theorem c3_amended (dbid now : Nat) (set : Set) (members : List Bytes)
    (st : Store) (m0 v : Bytes)
    (hv : assocLookup st.kv (setItemKey (DataKey dbid set.meta.obj.ID) m0) = some v)
    (hvne : v ≠ SetNilValue) :
    SRem dbid now set members st ≠ .err .setNilValue ∧
    ∀ n set' st', SRem dbid now set members st = .ok (n, set', st') →
      assocLookup st'.kv (setItemKey (DataKey dbid set.meta.obj.ID) m0) = some v := by
  have hmkne : setItemKey (DataKey dbid set.meta.obj.ID) m0 ≠ MetaKey dbid set.key :=
    setItemKey_ne_MetaKey dbid dbid set.meta.obj.ID m0 set.key
  rw [SRem_eq]
  by_cases hex : set.exists'
  · simp only [hex, Bool.not_true, Bool.false_eq_true, if_false]
    split
    · simp
    · rename_i e hl
      have hne := sremLoop_ne_setNilValue ((RemoveRepByMap members).map
        (setItemKey (DataKey dbid set.meta.obj.ID))) st
      rw [hl] at hne
      have he : e ≠ Err.setNilValue := fun h2 => hne (by rw [h2])
      refine ⟨by simp [he], ?_⟩
      intro n set' st' h
      exact absurd h (by simp)
    · rename_i num st1 hl
      have hst1 : assocLookup st1.kv (setItemKey (DataKey dbid set.meta.obj.ID) m0)
          = some v :=
        sremLoop_preserves _ st _ v hv hvne num st1 hl
      split
      · simp
      · rename_i e hu
        have := updateMeta_err dbid now _ st1 e hu
        simp [this]
      · rename_i set2 st2 hu
        have hq := (updateMeta_ok dbid now _ st1 _ hu).2
        injection hq with hq1 hq2
        refine ⟨by simp, ?_⟩
        intro n set' st' h
        injection h with h2
        injection h2 with h3 h4
        injection h4 with h5 h6
        rw [← h6, hq2]
        simpa [assocLookup_insert_ne st1.kv _ _ _ hmkne] using hst1
  · simp only [hex]
    refine ⟨by simp, ?_⟩
    intro n set' st' h
    simp only [Bool.not_false, if_true, Res.ok.injEq, Prod.mk.injEq] at h
    rw [← h.2.2]
    exact hv

theorem Store.get_nofail (st : Store) (k : Bytes) (hf : st.failKeys = [])
    (v : Bytes) (h : assocLookup st.kv k = some v) : st.get k = .ok v := by
  unfold Store.get
  simp [hf, h]

theorem Store.put_nofail (st : Store) (k v : Bytes) (hf : st.failKeys = []) :
    st.put k v = .ok { st with kv := assocInsert st.kv k v } := by
  unfold Store.put
  simp [hf]

theorem Store.del_nofail (st : Store) (k : Bytes) (hf : st.failKeys = []) :
    st.del k = .ok { st with kv := assocErase st.kv k } := by
  unfold Store.del
  simp [hf]

theorem SIsmember_present (dbid : Nat) (set : Set) (member : Bytes) (st : Store)
    (hex : set.exists' = true) (hf : st.failKeys = [])
    (hmem : assocLookup st.kv (setItemKey (DataKey dbid set.meta.obj.ID) member)
      = some SetNilValue) :
    SIsmember dbid set member st = .ok 1 := by
  simp only [SIsmember, hex, Bool.not_true, Bool.false_eq_true, if_false,
    Store.get_nofail st _ hf _ hmem]
  simp

theorem GetSet_loaded (dbid now newId : Nat) (key : Bytes) (st : Store)
    (m : SetMeta) (hf : st.failKeys = [])
    (hm : assocLookup st.kv (MetaKey dbid key) = some (encodeSetMeta m))
    (hwf : m.obj.wf) (hlo : -((two63 : Nat) : Int) ≤ m.Len)
    (hhi : m.Len < ((two63 : Nat) : Int)) (htype : m.obj.Type' = ObjectSet) :
    GetSet dbid now newId key st = .ok { meta := m, key := key, exists' := true } := by
  simp only [GetSet, Store.get_nofail st _ hf _ hm,
    DecodeSetMeta_encodeSetMeta m hwf hlo hhi]
  simp [htype, IsExpired, newSet]

/-- Claim C9: `SMove` with the destination logical key equal to the source's
own logical key, on a member present in the source, returns 1, deletes the
member's key and persists the decremented `Len` — the member is net lost from
the set rather than the call being a no-op.  The hypotheses say the handle was
loaded from the store's current metadata record (same record under the
metadata key), the member key holds the sentinel, the store has no injected
faults and no duplicate bindings, and the metadata is a well-formed record of
the set type. -/
theorem c9_smove_self (dbid now newId : Nat) (set : Set) (member : Bytes)
    (st : Store)
    (hex : set.exists' = true) (hf : st.failKeys = [])
    (hnd : (st.kv.map Prod.fst).Nodup)
    (hm : assocLookup st.kv (MetaKey dbid set.key) = some (encodeSetMeta set.meta))
    (hmem : assocLookup st.kv (setItemKey (DataKey dbid set.meta.obj.ID) member)
      = some SetNilValue)
    (hwf : set.meta.obj.wf) (hlo : -((two63 : Nat) : Int) ≤ set.meta.Len)
    (hhi : set.meta.Len < ((two63 : Nat) : Int))
    (htype : set.meta.obj.Type' = ObjectSet) :
    ∃ st' : Store,
      SMove dbid now newId set set.key member st =
        .ok (1,
          { meta := { obj := { set.meta.obj with UpdatedAt := now },
                      Len := set.meta.Len - 1 },
            key := set.key, exists' := true }, st') ∧
      assocLookup st'.kv (setItemKey (DataKey dbid set.meta.obj.ID) member) = none ∧
      assocLookup st'.kv (MetaKey dbid set.key) =
        some (encodeSetMeta { set.meta with Len := set.meta.Len - 1 }) := by
  have hikey := SIsmember_present dbid set member st hex hf hmem
  have hget := GetSet_loaded dbid now newId set.key st set.meta hf hm hwf hlo hhi htype
  have hikey2 := SIsmember_present dbid
    { meta := set.meta, key := set.key, exists' := true } member st rfl hf hmem
  refine ⟨{ st with kv := assocInsert (assocErase st.kv (setItemKey (DataKey dbid set.meta.obj.ID) member)) (MetaKey dbid set.key) (encodeSetMeta { set.meta with Len := set.meta.Len - 1 }) }, ?_, ?_, ?_⟩
  · simp only [SMove, hex, Bool.not_true, Bool.false_eq_true, if_false,
      hikey, hget, hikey2]
    norm_num [Store.del, Store.put, updateMeta_eq, hf]
  · rw [assocLookup_insert_ne _ _ _ _ (setItemKey_ne_MetaKey dbid dbid _ member _)]
    exact assocLookup_erase_self st.kv _ hnd
  · exact assocLookup_insert_self _ _ _

theorem c9_smove_self_witness :
    ∃ st' : Store,
      SMove 0 11 99 setA setA.key [9] stMoveSelf =
        .ok (1,
          { meta := { obj := { setA.meta.obj with UpdatedAt := 11 },
                      Len := setA.meta.Len - 1 },
            key := setA.key, exists' := true }, st') ∧
      assocLookup st'.kv (setItemKey (DataKey 0 setA.meta.obj.ID) [9]) = none ∧
      assocLookup st'.kv (MetaKey 0 setA.key) =
        some (encodeSetMeta { setA.meta with Len := setA.meta.Len - 1 }) :=
  c9_smove_self 0 11 99 setA [9] stMoveSelf (by decide) (by decide) (by decide)
    (by decide) (by decide) (by decide) (by decide) (by decide) (by decide)

theorem removeRepAux_spec (l : List Bytes) :
    ∀ seen, (removeRepAux l seen).Nodup ∧ ∀ x ∈ removeRepAux l seen, x ∉ seen := by
  induction l with
  | nil => intro seen; simp [removeRepAux]
  | cons m rest ih =>
    intro seen
    by_cases hm : m ∈ seen
    · simp only [removeRepAux, if_pos hm]
      exact ih seen
    · simp only [removeRepAux, if_neg hm]
      obtain ⟨ihn, ihs⟩ := ih (m :: seen)
      refine ⟨?_, ?_⟩
      · rw [List.nodup_cons]
        exact ⟨fun hc => (ihs m hc) (by simp), ihn⟩
      · intro x hx
        rcases List.mem_cons.mp hx with hx | hx
        · rw [hx]; exact hm
        · intro hc
          exact (ihs x hx) (by simp [hc])

theorem RemoveRepByMap_nodup (l : List Bytes) : (RemoveRepByMap l).Nodup :=
  (removeRepAux_spec l []).1

theorem setItemKey_injective (dkey : Bytes) :
    Function.Injective (setItemKey dkey) := by
  intro m1 m2 h
  simpa [setItemKey] using h

theorem isPfx_append_self (p t : Bytes) : isPfx p (p ++ t) = true := by
  induction p with
  | nil => simp [isPfx]
  | cons a as ih => simp [isPfx, ih]

theorem isPfx_setItemKey (dkey m : Bytes) :
    isPfx (dkey ++ [58]) (setItemKey dkey m) = true := by
  have h : setItemKey dkey m = (dkey ++ [58]) ++ m := by
    simp [setItemKey]
  rw [h]
  exact isPfx_append_self _ _

theorem isPfx_data_meta (dbid id dbid' : Nat) (k : Bytes) :
    isPfx (DataKey dbid id ++ [58]) (MetaKey dbid' k) = false := by
  simp [isPfx, DataKey, MetaKey]

theorem BatchGetValues_nofail (st : Store) (ks : List Bytes)
    (hf : st.failKeys = []) :
    BatchGetValues st ks = .ok (ks.map (assocLookup st.kv)) := by
  simp [BatchGetValues, hf]

theorem addAll_failKeys (ks : List Bytes) (st : Store) :
    (addAll st ks).failKeys = st.failKeys := by
  induction ks generalizing st with
  | nil => rfl
  | cons k rest ih => simpa [addAll] using ih _

theorem delAll_failKeys (ks : List Bytes) (st : Store) :
    (delAll st ks).failKeys = st.failKeys := by
  induction ks generalizing st with
  | nil => rfl
  | cons k rest ih => simpa [delAll] using ih _

theorem assocInsert_keys (kv : List (Bytes × Bytes)) (k v : Bytes) :
    (assocInsert kv k v).map Prod.fst =
      if (assocLookup kv k).isSome then kv.map Prod.fst
      else kv.map Prod.fst ++ [k] := by
  induction kv with
  | nil => simp [assocInsert, assocLookup]
  | cons p rest ih =>
    obtain ⟨k', v'⟩ := p
    by_cases hk : k = k'
    · simp [assocInsert, assocLookup, hk]
    · simp only [assocInsert, if_neg hk, assocLookup, List.map_cons, ih]
      by_cases hs : (assocLookup rest k).isSome
      · simp [hs, hk]
      · simp [hs, hk]

theorem assocInsert_mem_keys (kv : List (Bytes × Bytes)) (k v k0 : Bytes) :
    k0 ∈ (assocInsert kv k v).map Prod.fst ↔
      k0 ∈ kv.map Prod.fst ∨ k0 = k := by
  rw [assocInsert_keys]
  by_cases hs : (assocLookup kv k).isSome
  · simp only [if_pos hs]
    constructor
    · exact Or.inl
    · intro h
      rcases h with h | h
      · exact h
      · rw [h]
        obtain ⟨v', hv'⟩ := Option.isSome_iff_exists.mp hs
        exact assocLookup_some_mem kv k v' hv'
  · simp [hs]

theorem saddLoop_eq (ks : List Bytes) (st0 st : Store)
    (hf : st.failKeys = [])
    (hnd : ks.Nodup)
    (hsame : ∀ k ∈ ks, assocLookup st.kv k = assocLookup st0.kv k) :
    saddLoop (ks.zip (ks.map (assocLookup st0.kv))) st =
      .ok (((ks.countP (fun k => (assocLookup st0.kv k).isNone) : Nat) : Int),
        addAll st ks) := by
  induction ks generalizing st with
  | nil => simp [saddLoop, addAll]
  | cons k rest ih =>
    rw [List.nodup_cons] at hnd
    simp only [List.map_cons, List.zip_cons_cons, saddLoop,
      Store.put_nofail st k SetNilValue hf]
    have hsame' : ∀ k' ∈ rest,
        assocLookup (assocInsert st.kv k SetNilValue) k' =
          assocLookup st0.kv k' := by
      intro k' hk'
      have hkk : k' ≠ k := fun hc => hnd.1 (hc ▸ hk')
      rw [assocLookup_insert_ne st.kv k SetNilValue k' hkk]
      exact hsame k' (by simp [hk'])
    have ih2 := ih { st with kv := assocInsert st.kv k SetNilValue } hf hnd.2 hsame'
    simp only [List.zip] at ih2 ⊢
    rw [ih2]
    simp only [List.countP_cons, addAll, List.foldl_cons]
    have hk0 := hsame k (by simp)
    by_cases hn : (assocLookup st0.kv k).isNone
    · have : assocLookup st0.kv k = none := Option.isNone_iff_eq_none.mp hn
      simp [this, hn]
      ring
    · have : ¬ assocLookup st0.kv k = none := by
        intro hc
        exact hn (by simp [hc])
      simp [this, hn]

theorem addAll_cons (st : Store) (k : Bytes) (rest : List Bytes) :
    addAll st (k :: rest) =
      addAll { st with kv := assocInsert st.kv k SetNilValue } rest := rfl

theorem delAll_cons (st : Store) (k : Bytes) (rest : List Bytes) :
    delAll st (k :: rest) =
      delAll { st with kv := assocErase st.kv k } rest := rfl

theorem addAll_mem_keys (ks : List Bytes) (st : Store) (k0 : Bytes) :
    k0 ∈ (addAll st ks).kv.map Prod.fst ↔
      k0 ∈ st.kv.map Prod.fst ∨ k0 ∈ ks := by
  induction ks generalizing st with
  | nil => simp [addAll]
  | cons k rest ih =>
    rw [addAll_cons, ih]
    simp only [assocInsert_mem_keys, List.mem_cons]
    tauto

theorem addAll_filter_length (ks : List Bytes) (st0 : Store) (p : Bytes → Bool)
    (hall : ∀ k ∈ ks, p k = true) (hnd : ks.Nodup) :
    ∀ st : Store, (∀ k ∈ ks, assocLookup st.kv k = assocLookup st0.kv k) →
    (((addAll st ks).kv.map Prod.fst).filter p).length =
      ((st.kv.map Prod.fst).filter p).length +
        ks.countP (fun k => (assocLookup st0.kv k).isNone) := by
  induction ks with
  | nil => intro st _; simp [addAll]
  | cons k rest ih =>
    intro st hsame
    rw [List.nodup_cons] at hnd
    rw [addAll_cons]
    have hsame' : ∀ k' ∈ rest,
        assocLookup (assocInsert st.kv k SetNilValue) k' =
          assocLookup st0.kv k' := by
      intro k' hk'
      have hkk : k' ≠ k := fun hc => hnd.1 (hc ▸ hk')
      rw [assocLookup_insert_ne st.kv k SetNilValue k' hkk]
      exact hsame k' (List.mem_cons_of_mem _ hk')
    rw [ih (fun k' h => hall k' (List.mem_cons_of_mem _ h)) hnd.2
      { st with kv := assocInsert st.kv k SetNilValue } hsame']
    have hk0 := hsame k (by simp)
    rw [assocInsert_keys]
    cases hv : assocLookup st.kv k with
    | none =>
      rw [hv] at hk0
      simp only [Option.isSome_none, Bool.false_eq_true, if_false,
        List.filter_append, List.countP_cons, ← hk0]
      simp [hall k (by simp)]
      omega
    | some v =>
      rw [hv] at hk0
      simp only [Option.isSome_some, if_true, List.countP_cons, ← hk0]
      simp

theorem filter_keys_insert_notp (kv : List (Bytes × Bytes)) (k v : Bytes)
    (p : Bytes → Bool) (hp : p k = false) :
    ((assocInsert kv k v).map Prod.fst).filter p = (kv.map Prod.fst).filter p := by
  rw [assocInsert_keys]
  by_cases hs : (assocLookup kv k).isSome
  · simp [hs]
  · simp [hs, List.filter_append, hp]

/-- Claim C5: for every member list (duplicates included), `SAdd` returns an
added count equal to the number of distinct members absent beforehand; the
updated `Len` is the prior `Len` plus that count, and — under the cardinality
invariant `Len` = number of member keys — equals the cardinality of the union
of the prior member keys and the distinct input member keys, which is also
what a subsequent `SCard` reports.  Members already present contribute 0. -/
theorem c5_sadd_spec (dbid now : Nat) (set : Set) (members : List Bytes)
    (st : Store) (hf : st.failKeys = [])
    (hinv : set.meta.Len = ((memberKeys st dbid set.meta.obj.ID).length : Int)) :
    ∃ set' st',
      SAdd dbid now set members st = .ok
        ((((RemoveRepByMap members).countP (fun m => (assocLookup st.kv
            (setItemKey (DataKey dbid set.meta.obj.ID) m)).isNone) : Nat) : Int),
          set', st') ∧
      set'.meta.Len = set.meta.Len +
        (((RemoveRepByMap members).countP (fun m => (assocLookup st.kv
            (setItemKey (DataKey dbid set.meta.obj.ID) m)).isNone) : Nat) : Int) ∧
      set'.meta.Len = ((memberKeys st' dbid set.meta.obj.ID).length : Int) ∧
      (∀ k, k ∈ memberKeys st' dbid set.meta.obj.ID ↔
        k ∈ memberKeys st dbid set.meta.obj.ID ∨
          ∃ m ∈ RemoveRepByMap members,
            k = setItemKey (DataKey dbid set.meta.obj.ID) m) ∧
      SCard set' = .ok set'.meta.Len := by
  have hnodup : ((RemoveRepByMap members).map
      (setItemKey (DataKey dbid set.meta.obj.ID))).Nodup :=
    (RemoveRepByMap_nodup members).map (setItemKey_injective _)
  have hbatch := BatchGetValues_nofail st ((RemoveRepByMap members).map
    (setItemKey (DataKey dbid set.meta.obj.ID))) hf
  have hloop := saddLoop_eq ((RemoveRepByMap members).map
    (setItemKey (DataKey dbid set.meta.obj.ID))) st st hf hnodup (fun _ _ => rfl)
  have hcnt : (((RemoveRepByMap members).map
      (setItemKey (DataKey dbid set.meta.obj.ID))).countP
        (fun k => (assocLookup st.kv k).isNone)) =
      ((RemoveRepByMap members).countP (fun m => (assocLookup st.kv
        (setItemKey (DataKey dbid set.meta.obj.ID) m)).isNone)) := by
    rw [List.countP_map]
    rfl
  rw [hcnt] at hloop
  refine ⟨{ set with meta := { obj := { set.meta.obj with UpdatedAt := now }, Len := set.meta.Len + (((RemoveRepByMap members).countP (fun m => (assocLookup st.kv (setItemKey (DataKey dbid set.meta.obj.ID) m)).isNone) : Nat) : Int) }, exists' := true }, { st with kv := assocInsert (addAll st ((RemoveRepByMap members).map (setItemKey (DataKey dbid set.meta.obj.ID)))).kv (MetaKey dbid set.key) (encodeSetMeta { set.meta with Len := set.meta.Len + (((RemoveRepByMap members).countP (fun m => (assocLookup st.kv (setItemKey (DataKey dbid set.meta.obj.ID) m)).isNone) : Nat) : Int) }) }, ?_, ?_, ?_, ?_, ?_⟩
  · simp only [SAdd, hbatch, hloop, updateMeta_eq, Store.put, addAll_failKeys,
      hf]
    norm_num
  · rfl
  · have hall : ∀ k ∈ (RemoveRepByMap members).map
        (setItemKey (DataKey dbid set.meta.obj.ID)),
        isPfx (DataKey dbid set.meta.obj.ID ++ [58]) k = true := by
      intro k hk
      obtain ⟨m, hm, rfl⟩ := List.mem_map.mp hk
      exact isPfx_setItemKey _ _
    simp only [memberKeys]
    rw [filter_keys_insert_notp _ _ _ _
      (isPfx_data_meta dbid set.meta.obj.ID dbid set.key)]
    rw [addAll_filter_length _ st _ hall hnodup st (fun _ _ => rfl), hcnt]
    simp only [memberKeys] at hinv
    rw [hinv]
    push_cast
    ring
  · intro k
    simp only [memberKeys, List.mem_filter, assocInsert_mem_keys,
      addAll_mem_keys]
    constructor
    · rintro ⟨(hk | hk) | hk, hp⟩
      · exact Or.inl ⟨hk, hp⟩
      · right
        obtain ⟨m, hm, rfl⟩ := List.mem_map.mp hk
        exact ⟨m, hm, rfl⟩
      · rw [hk, isPfx_data_meta] at hp
        cases hp
    · rintro (⟨hk, hp⟩ | ⟨m, hm, rfl⟩)
      · exact ⟨Or.inl (Or.inl hk), hp⟩
      · exact ⟨Or.inl (Or.inr (List.mem_map.mpr ⟨m, hm, rfl⟩)),
          isPfx_setItemKey _ _⟩
  · simp [SCard]

theorem c5_sadd_spec_witness :
    ∃ set' st',
      SAdd 0 11 setA1 [[5], [6], [5]] stC5 = .ok
        ((((RemoveRepByMap [[5], [6], [5]]).countP (fun m => (assocLookup stC5.kv
            (setItemKey (DataKey 0 setA1.meta.obj.ID) m)).isNone) : Nat) : Int),
          set', st') ∧
      set'.meta.Len = setA1.meta.Len +
        (((RemoveRepByMap [[5], [6], [5]]).countP (fun m => (assocLookup stC5.kv
            (setItemKey (DataKey 0 setA1.meta.obj.ID) m)).isNone) : Nat) : Int) ∧
      set'.meta.Len = ((memberKeys st' 0 setA1.meta.obj.ID).length : Int) ∧
      (∀ k, k ∈ memberKeys st' 0 setA1.meta.obj.ID ↔
        k ∈ memberKeys stC5 0 setA1.meta.obj.ID ∨
          ∃ m ∈ RemoveRepByMap [[5], [6], [5]],
            k = setItemKey (DataKey 0 setA1.meta.obj.ID) m) ∧
      SCard set' = .ok set'.meta.Len :=
  c5_sadd_spec 0 11 setA1 [[5], [6], [5]] stC5 (by decide) (by decide)

theorem lexLe_total (a : Bytes) : ∀ b, lexLe a b = true ∨ lexLe b a = true := by
  induction a with
  | nil => intro b; left; rfl
  | cons x xs ih =>
    intro b
    cases b with
    | nil => right; rfl
    | cons y ys =>
      by_cases hxy : x < y
      · left
        simp [lexLe, hxy]
      · by_cases hyx : y < x
        · right
          simp [lexLe, hyx]
        · rcases ih ys with h | h
          · left
            simp [lexLe, hxy, hyx, h]
          · right
            simp [lexLe, hxy, hyx, h]

theorem lexLe_trans (a : Bytes) : ∀ b c, lexLe a b = true → lexLe b c = true →
    lexLe a c = true := by
  induction a with
  | nil => intro b c _ _; rfl
  | cons x xs ih =>
    intro b c hab hbc
    cases b with
    | nil => simp [lexLe] at hab
    | cons y ys =>
      cases c with
      | nil => simp [lexLe] at hbc
      | cons z zs =>
        simp only [lexLe] at hab hbc ⊢
        split_ifs at hab hbc ⊢ <;>
          first
            | rfl
            | omega
            | exact ih ys zs hab hbc

instance : IsTotal Bytes lexLeP := ⟨fun a b => lexLe_total a b⟩

instance : IsTrans Bytes lexLeP := ⟨fun a b c => lexLe_trans a b c⟩

theorem lexLe_append_left (p : Bytes) (a b : Bytes) :
    lexLe (p ++ a) (p ++ b) = lexLe a b := by
  induction p with
  | nil => rfl
  | cons x xs ih => simp [lexLe, ih]

theorem isPfx_reconstruct (p : Bytes) : ∀ k, isPfx p k = true →
    p ++ k.drop p.length = k := by
  induction p with
  | nil => intro k _; simp
  | cons x xs ih =>
    intro k h
    cases k with
    | nil => simp [isPfx] at h
    | cons y ys =>
      simp only [isPfx] at h
      split at h
      · rename_i hxy
        simp only [List.length_cons, List.drop_succ_cons, List.cons_append,
          hxy, List.cons.injEq, true_and]
        exact ih ys h
      · cases h

theorem iterKeys_perm (st : Store) (pfx : Bytes) :
    List.Perm (iterKeys st pfx) ((st.kv.map Prod.fst).filter (fun k => isPfx pfx k)) :=
  List.perm_insertionSort lexLeP _

theorem iterKeys_sorted (st : Store) (pfx : Bytes) :
    List.Pairwise lexLeP (iterKeys st pfx) :=
  List.sorted_insertionSort lexLeP _

theorem assocLookup_erase_none (kv : List (Bytes × Bytes)) (k k0 : Bytes)
    (h : assocLookup kv k0 = none) :
    assocLookup (assocErase kv k) k0 = none := by
  induction kv with
  | nil => simp [assocErase, assocLookup]
  | cons p rest ih =>
    obtain ⟨k', v'⟩ := p
    simp only [assocLookup] at h
    by_cases h0 : k0 = k'
    · simp [h0] at h
    · simp only [if_neg h0] at h
      by_cases hk : k = k'
      · simpa [assocErase, hk] using h
      · simp [assocErase, hk, assocLookup, h0, ih h]

theorem assocErase_sublist (kv : List (Bytes × Bytes)) (k : Bytes) :
    List.Sublist (assocErase kv k) kv := by
  induction kv with
  | nil => simp [assocErase]
  | cons p rest ih =>
    obtain ⟨k', v'⟩ := p
    by_cases hk : k = k'
    · simp only [assocErase, if_pos hk]
      exact List.sublist_cons_self _ _
    · simp only [assocErase, if_neg hk]
      exact ih.cons₂ _

theorem assocErase_keys_nodup (kv : List (Bytes × Bytes)) (k : Bytes)
    (h : (kv.map Prod.fst).Nodup) : ((assocErase kv k).map Prod.fst).Nodup :=
  ((assocErase_sublist kv k).map Prod.fst).nodup h

theorem delAll_lookup_none (ks : List Bytes) :
    ∀ st : Store, ∀ k0, assocLookup st.kv k0 = none →
      assocLookup (delAll st ks).kv k0 = none := by
  induction ks with
  | nil => intro st k0 h; exact h
  | cons k rest ih =>
    intro st k0 h
    rw [delAll_cons]
    exact ih _ k0 (assocLookup_erase_none st.kv k k0 h)

theorem delAll_nodup (ks : List Bytes) :
    ∀ st : Store, (st.kv.map Prod.fst).Nodup →
      ((delAll st ks).kv.map Prod.fst).Nodup := by
  induction ks with
  | nil => intro st h; exact h
  | cons k rest ih =>
    intro st h
    rw [delAll_cons]
    exact ih _ (assocErase_keys_nodup st.kv k h)

theorem delAll_lookup_mem (ks : List Bytes) :
    ∀ st : Store, (st.kv.map Prod.fst).Nodup → ∀ k0 ∈ ks,
      assocLookup (delAll st ks).kv k0 = none := by
  induction ks with
  | nil => intro st _ k0 h; simp at h
  | cons k rest ih =>
    intro st hnd k0 hk0
    rw [delAll_cons]
    rcases List.mem_cons.mp hk0 with h | h
    · subst h
      exact delAll_lookup_none rest _ k0 (assocLookup_erase_self st.kv k0 hnd)
    · exact ih _ (assocErase_keys_nodup st.kv k hnd) k0 h

theorem spopLoop_nonneg (pfxLen : Nat) (ks : List Bytes) :
    ∀ (n : Int) (st : Store), st.failKeys = [] → 0 ≤ n →
    spopLoop pfxLen ks n st =
      .ok ((ks.take n.toNat).map (fun k => k.drop pfxLen),
        ((min n.toNat ks.length : Nat) : Int),
        delAll st (ks.take n.toNat)) := by
  induction ks with
  | nil => intro n st _ _; simp [spopLoop, delAll]
  | cons k rest ih =>
    intro n st hf hn
    by_cases h0 : n = 0
    · subst h0
      simp [spopLoop, delAll]
    · have hpos : 0 < n := lt_of_le_of_ne hn (Ne.symm h0)
      simp only [spopLoop, if_neg h0, Store.del_nofail st k hf,
        ih (n - 1) { st with kv := assocErase st.kv k } hf (by omega)]
      have htn : n.toNat = (n - 1).toNat + 1 := by omega
      rw [htn]
      simp only [List.take_succ_cons, List.map_cons, delAll_cons,
        List.length_cons, Res.ok.injEq, Prod.mk.injEq]
      refine ⟨trivial, ?_, trivial⟩
      have : min ((n - 1).toNat + 1) (rest.length + 1) =
          min ((n - 1).toNat) rest.length + 1 := by omega
      rw [this]
      push_cast
      ring

theorem spopLoop_neg (pfxLen : Nat) (ks : List Bytes) :
    ∀ (n : Int) (st : Store), st.failKeys = [] → n < 0 →
    spopLoop pfxLen ks n st =
      .ok (ks.map (fun k => k.drop pfxLen), (ks.length : Nat),
        delAll st ks) := by
  induction ks with
  | nil => intro n st _ _; simp [spopLoop, delAll]
  | cons k rest ih =>
    intro n st hf hn
    have h0 : n ≠ 0 := by omega
    simp only [spopLoop, if_neg h0, Store.del_nofail st k hf,
      ih (n - 1) { st with kv := assocErase st.kv k } hf (by omega)]
    simp only [List.map_cons, delAll_cons, List.length_cons, Res.ok.injEq,
      Prod.mk.injEq]
    refine ⟨trivial, ?_, trivial⟩
    push_cast
    ring

theorem SPop_eq (dbid now : Nat) (set : Set) (count : Int) (st : Store) :
    SPop dbid now set count st =
      if !set.exists' || set.meta.Len = 0 then .ok ([], set, st)
      else
        match spopLoop (DataKey dbid set.meta.obj.ID ++ [58]).length
            (iterKeys st (DataKey dbid set.meta.obj.ID ++ [58])) count st with
        | .panic => .panic
        | .err e => .err e
        | .ok (members, deleted, st') =>
          match updateMeta dbid now
              { set with meta := { set.meta with Len := set.meta.Len - deleted } }
              st' with
          | .panic => .panic
          | .err e => .err e
          | .ok (set'', st'') => .ok (members, set'', st'') := rfl

theorem setItemKey_pfx (dkey m : Bytes) :
    setItemKey dkey m = (dkey ++ [58]) ++ m := by
  simp [setItemKey]

/-- Claim C4: on an existing set of cardinality `k` (the number of member keys,
which the invariant ties to `Len`) and a non-negative requested count `n`,
`SPop` succeeds and returns exactly `min n k` members; each returned member is
a member of the set, every returned member is lexicographically ≤ every member
left behind (the lexicographically smallest members are removed), the returned
members' keys are deleted from the store, and the stored cardinality (as
reported by `SCard`) decreases by exactly `min n k`. -/
theorem c4_spop_spec (dbid now : Nat) (set : Set) (n : Int) (st : Store)
    (hex : set.exists' = true) (hf : st.failKeys = [])
    (hnd : (st.kv.map Prod.fst).Nodup) (hn : 0 ≤ n)
    (hinv : set.meta.Len = ((memberKeys st dbid set.meta.obj.ID).length : Int)) :
    ∃ ms set' st',
      SPop dbid now set n st = .ok (ms, set', st') ∧
      ms.length = min n.toNat (memberKeys st dbid set.meta.obj.ID).length ∧
      (∀ x ∈ ms, x ∈ memberSuffixes st dbid set.meta.obj.ID) ∧
      (∀ x ∈ ms, ∀ y ∈ memberSuffixes st dbid set.meta.obj.ID, y ∉ ms →
        lexLe x y = true) ∧
      (∀ x ∈ ms, assocLookup st'.kv
        (setItemKey (DataKey dbid set.meta.obj.ID) x) = none) ∧
      set'.meta.Len = set.meta.Len -
        ((min n.toNat (memberKeys st dbid set.meta.obj.ID).length : Nat) : Int) ∧
      SCard set' = .ok (set.meta.Len -
        ((min n.toNat (memberKeys st dbid set.meta.obj.ID).length : Nat) : Int)) := by
  by_cases hL : set.meta.Len = 0
  · have hmk : (memberKeys st dbid set.meta.obj.ID).length = 0 := by
      rw [hL] at hinv
      exact_mod_cast hinv.symm
    refine ⟨[], set, st, ?_, ?_, ?_, ?_, ?_, ?_, ?_⟩
    · rw [SPop_eq, if_pos (by simp [hL])]
    · simp [hmk]
    · simp
    · simp
    · simp
    · simp [hmk]
    · simp [SCard, hex, hmk, hL]
  · have hcond : (!set.exists' || set.meta.Len = 0) = false := by
      simp [hex, hL]
    have hloop := spopLoop_nonneg (DataKey dbid set.meta.obj.ID ++ [58]).length
      (iterKeys st (DataKey dbid set.meta.obj.ID ++ [58])) n st hf hn
    have hlp : (iterKeys st (DataKey dbid set.meta.obj.ID ++ [58])).length =
        (memberKeys st dbid set.meta.obj.ID).length := by
      simpa [memberKeys] using
        (iterKeys_perm st (DataKey dbid set.meta.obj.ID ++ [58])).length_eq
    have hmem_iter : ∀ k1, k1 ∈ iterKeys st (DataKey dbid set.meta.obj.ID ++ [58]) ↔
        k1 ∈ memberKeys st dbid set.meta.obj.ID := by
      intro k1
      simpa [memberKeys] using
        (iterKeys_perm st (DataKey dbid set.meta.obj.ID ++ [58])).mem_iff
    have hpfx_iter : ∀ k1, k1 ∈ iterKeys st (DataKey dbid set.meta.obj.ID ++ [58]) →
        isPfx (DataKey dbid set.meta.obj.ID ++ [58]) k1 = true := by
      intro k1 hk1
      have := (hmem_iter k1).mp hk1
      simp only [memberKeys, List.mem_filter] at this
      exact this.2
    refine ⟨((iterKeys st (DataKey dbid set.meta.obj.ID ++ [58])).take n.toNat).map (fun k => k.drop (DataKey dbid set.meta.obj.ID ++ [58]).length), { set with meta := { obj := { set.meta.obj with UpdatedAt := now }, Len := set.meta.Len - ((min n.toNat (iterKeys st (DataKey dbid set.meta.obj.ID ++ [58])).length : Nat) : Int) }, exists' := true }, { st with kv := assocInsert (delAll st ((iterKeys st (DataKey dbid set.meta.obj.ID ++ [58])).take n.toNat)).kv (MetaKey dbid set.key) (encodeSetMeta { set.meta with Len := set.meta.Len - ((min n.toNat (iterKeys st (DataKey dbid set.meta.obj.ID ++ [58])).length : Nat) : Int) }) }, ?_, ?_, ?_, ?_, ?_, ?_, ?_⟩
    · rw [SPop_eq, hcond]
      simp only [Bool.false_eq_true, if_false, hloop, updateMeta_eq, Store.put,
        delAll_failKeys, hf]
      norm_num
    · simp [List.length_take, hlp]
    · intro x hx
      obtain ⟨k1, hk1, rfl⟩ := List.mem_map.mp hx
      have hk1s := List.mem_of_mem_take hk1
      have hk1m := (hmem_iter k1).mp hk1s
      exact List.mem_map.mpr ⟨k1, hk1m, rfl⟩
    · intro x hx y hy hyn
      obtain ⟨k1, hk1, rfl⟩ := List.mem_map.mp hx
      obtain ⟨k2, hk2m, rfl⟩ := List.mem_map.mp hy
      have hk2s : k2 ∈ iterKeys st (DataKey dbid set.meta.obj.ID ++ [58]) :=
        (hmem_iter k2).mpr hk2m
      have hk2drop : k2 ∈ (iterKeys st (DataKey dbid set.meta.obj.ID ++ [58])).drop n.toNat := by
        have hsplit := List.take_append_drop n.toNat
          (iterKeys st (DataKey dbid set.meta.obj.ID ++ [58]))
        rw [← hsplit] at hk2s
        rcases List.mem_append.mp hk2s with h | h
        · exact absurd (List.mem_map.mpr ⟨k2, h, rfl⟩) hyn
        · exact h
      have hsorted := iterKeys_sorted st (DataKey dbid set.meta.obj.ID ++ [58])
      have hpair : lexLeP k1 k2 := by
        have hsplit := List.take_append_drop n.toNat
          (iterKeys st (DataKey dbid set.meta.obj.ID ++ [58]))
        rw [← hsplit] at hsorted
        exact (List.pairwise_append.mp hsorted).2.2 k1 hk1 k2 hk2drop
      have hr1 := isPfx_reconstruct _ k1
        (hpfx_iter k1 (List.mem_of_mem_take hk1))
      have hr2 := isPfx_reconstruct _ k2 (by
        have := hk2m
        simp only [memberKeys, List.mem_filter] at this
        exact this.2)
      rw [← lexLe_append_left (DataKey dbid set.meta.obj.ID ++ [58]), hr1, hr2]
      exact hpair
    · intro x hx
      obtain ⟨k1, hk1, rfl⟩ := List.mem_map.mp hx
      have hr1 := isPfx_reconstruct _ k1
        (hpfx_iter k1 (List.mem_of_mem_take hk1))
      rw [setItemKey_pfx, hr1]
      rw [assocLookup_insert_ne _ _ _ _ (by
        rw [← hr1, ← setItemKey_pfx]
        exact setItemKey_ne_MetaKey dbid dbid set.meta.obj.ID _ set.key)]
      exact delAll_lookup_mem _ st hnd k1 hk1
    · simp [hlp]
    · simp [SCard, hlp]

theorem c4_spop_spec_witness :
    ∃ ms set' st',
      SPop 0 11 setA 1 stPop = .ok (ms, set', st') ∧
      ms.length = min (1 : Int).toNat (memberKeys stPop 0 setA.meta.obj.ID).length ∧
      (∀ x ∈ ms, x ∈ memberSuffixes stPop 0 setA.meta.obj.ID) ∧
      (∀ x ∈ ms, ∀ y ∈ memberSuffixes stPop 0 setA.meta.obj.ID, y ∉ ms →
        lexLe x y = true) ∧
      (∀ x ∈ ms, assocLookup st'.kv
        (setItemKey (DataKey 0 setA.meta.obj.ID) x) = none) ∧
      set'.meta.Len = setA.meta.Len -
        ((min (1 : Int).toNat (memberKeys stPop 0 setA.meta.obj.ID).length : Nat) : Int) ∧
      SCard set' = .ok (setA.meta.Len -
        ((min (1 : Int).toNat (memberKeys stPop 0 setA.meta.obj.ID).length : Nat) : Int)) :=
  c4_spop_spec 0 11 setA 1 stPop (by decide) (by decide) (by decide) (by decide)
    (by decide)

/-- Claim C10: on an existing non-empty set, a negative requested count makes
`SPop` return and delete all members of the set — the loop budget is
decremented past zero and never reaches the termination value — and the
persisted `Len` becomes 0 (under the cardinality invariant). -/
theorem c10_spop_negative (dbid now : Nat) (set : Set) (n : Int) (st : Store)
    (hex : set.exists' = true) (hf : st.failKeys = [])
    (hnd : (st.kv.map Prod.fst).Nodup) (hn : n < 0)
    (hne : set.meta.Len ≠ 0)
    (hinv : set.meta.Len = ((memberKeys st dbid set.meta.obj.ID).length : Int)) :
    ∃ ms set' st',
      SPop dbid now set n st = .ok (ms, set', st') ∧
      (∀ y, y ∈ ms ↔ y ∈ memberSuffixes st dbid set.meta.obj.ID) ∧
      ms.length = (memberSuffixes st dbid set.meta.obj.ID).length ∧
      (∀ y ∈ memberSuffixes st dbid set.meta.obj.ID,
        assocLookup st'.kv (setItemKey (DataKey dbid set.meta.obj.ID) y) = none) ∧
      set'.meta.Len = 0 ∧
      assocLookup st'.kv (MetaKey dbid set.key) =
        some (encodeSetMeta { set.meta with Len := 0 }) := by
  have hcond : (!set.exists' || set.meta.Len = 0) = false := by
    simp [hex, hne]
  have hloop := spopLoop_neg (DataKey dbid set.meta.obj.ID ++ [58]).length
    (iterKeys st (DataKey dbid set.meta.obj.ID ++ [58])) n st hf hn
  have hlp : (iterKeys st (DataKey dbid set.meta.obj.ID ++ [58])).length =
      (memberKeys st dbid set.meta.obj.ID).length := by
    simpa [memberKeys] using
      (iterKeys_perm st (DataKey dbid set.meta.obj.ID ++ [58])).length_eq
  have hmem_iter : ∀ k1, k1 ∈ iterKeys st (DataKey dbid set.meta.obj.ID ++ [58]) ↔
      k1 ∈ memberKeys st dbid set.meta.obj.ID := by
    intro k1
    simpa [memberKeys] using
      (iterKeys_perm st (DataKey dbid set.meta.obj.ID ++ [58])).mem_iff
  have hzero : set.meta.Len -
      (((iterKeys st (DataKey dbid set.meta.obj.ID ++ [58])).length : Nat) : Int)
        = 0 := by
    rw [hinv, hlp]
    ring
  refine ⟨(iterKeys st (DataKey dbid set.meta.obj.ID ++ [58])).map (fun k => k.drop (DataKey dbid set.meta.obj.ID ++ [58]).length), { set with meta := { obj := { set.meta.obj with UpdatedAt := now }, Len := set.meta.Len - (((iterKeys st (DataKey dbid set.meta.obj.ID ++ [58])).length : Nat) : Int) }, exists' := true }, { st with kv := assocInsert (delAll st (iterKeys st (DataKey dbid set.meta.obj.ID ++ [58]))).kv (MetaKey dbid set.key) (encodeSetMeta { set.meta with Len := set.meta.Len - (((iterKeys st (DataKey dbid set.meta.obj.ID ++ [58])).length : Nat) : Int) }) }, ?_, ?_, ?_, ?_, ?_, ?_⟩
  · rw [SPop_eq, hcond]
    simp only [Bool.false_eq_true, if_false, hloop, updateMeta_eq, Store.put,
      delAll_failKeys, hf]
    norm_num
  · intro y
    constructor
    · intro hy
      obtain ⟨k1, hk1, rfl⟩ := List.mem_map.mp hy
      exact List.mem_map.mpr ⟨k1, (hmem_iter k1).mp hk1, rfl⟩
    · intro hy
      obtain ⟨k2, hk2, rfl⟩ := List.mem_map.mp hy
      exact List.mem_map.mpr ⟨k2, (hmem_iter k2).mpr hk2, rfl⟩
  · simp [memberSuffixes, hlp]
  · intro y hy
    obtain ⟨k2, hk2, rfl⟩ := List.mem_map.mp hy
    have hk2s := (hmem_iter k2).mpr hk2
    have hpfx2 : isPfx (DataKey dbid set.meta.obj.ID ++ [58]) k2 = true := by
      have := hk2
      simp only [memberKeys, List.mem_filter] at this
      exact this.2
    have hr2 := isPfx_reconstruct _ k2 hpfx2
    rw [setItemKey_pfx, hr2]
    rw [assocLookup_insert_ne _ _ _ _ (by
      rw [← hr2, ← setItemKey_pfx]
      exact setItemKey_ne_MetaKey dbid dbid set.meta.obj.ID _ set.key)]
    exact delAll_lookup_mem _ st hnd k2 hk2s
  · exact hzero
  · rw [assocLookup_insert_self, hzero]

theorem c10_spop_negative_witness :
    ∃ ms set' st',
      SPop 0 11 setA (-1) stPop = .ok (ms, set', st') ∧
      (∀ y, y ∈ ms ↔ y ∈ memberSuffixes stPop 0 setA.meta.obj.ID) ∧
      ms.length = (memberSuffixes stPop 0 setA.meta.obj.ID).length ∧
      (∀ y ∈ memberSuffixes stPop 0 setA.meta.obj.ID,
        assocLookup st'.kv (setItemKey (DataKey 0 setA.meta.obj.ID) y) = none) ∧
      set'.meta.Len = 0 ∧
      assocLookup st'.kv (MetaKey 0 setA.key) =
        some (encodeSetMeta { setA.meta with Len := 0 }) :=
  c10_spop_negative 0 11 setA (-1) stPop (by decide) (by decide) (by decide)
    (by decide) (by decide) (by decide)

theorem c3_amended_witness :
    (assocLookup stCorrupt.kv (setItemKey (DataKey 0 setA.meta.obj.ID) [9]) =
        some [7] ∧ ([7] : Bytes) ≠ SetNilValue) ∧
    (SRem 0 11 setA [[9], [4]] stCorrupt ≠ .err .setNilValue ∧
      ∀ n set' st', SRem 0 11 setA [[9], [4]] stCorrupt = .ok (n, set', st') →
        assocLookup st'.kv (setItemKey (DataKey 0 setA.meta.obj.ID) [9]) =
          some [7]) :=
  ⟨⟨by decide, by decide⟩,
    c3_amended 0 11 setA [[9], [4]] stCorrupt [9] [7] (by decide) (by decide)⟩

end titan
